import Mathlib

/-!
Shallow embedding of `src/martyrology/main.py` (ordotools/chant-books).

The Python program converts legacy HTML martyrology pages into a LaTeX
document.  The pure text-processing core is embedded here over `List Char`
and `String`:

* `latex_escape`, `fix_quotes_for_latex` — the Text Normalizer;
* `replace_response_symbols_latin` / `_english` — the Symbol Substitutor;
* `_starts_with_response_token`, `merge_response_rows` — the Row Merger;
* the preface-row scan and conclusion-row filter of `parse_file`;
* `dropcap_first_word`, `emit_body_paracol_with_dropcaps`,
  `_color_cell_for_letters`, `emit_letter_tables_compact_no_border`,
  `month_from_folder` and the month-transition logic of `write_latex`.

HTML parsing (BeautifulSoup) is abstracted away: table rows enter the
embedding as lists of already-extracted cell texts (`clean_text` output).
Python's `html.unescape` is modelled on the common named/numeric entities;
like the real function it is the identity on text without an ampersand.
Python's Unicode-aware `isalpha`/`\w` are modelled on ASCII letters plus
the accented-Latin repertoire that the program's own regexes enumerate.
-/

/-! ### Character classes -/

/-- Python regex `\s` and `str.strip()` whitespace (ASCII part plus NBSP;
further exotic Unicode spaces are not modelled). -/
def isPyWs (c : Char) : Bool :=
  c = ' ' || c = '\t' || c = '\n' || c = '\r' || c = '\x0b' || c = '\x0c' || c = '\xa0'

/-- The literal character class `[ \t\f\v]` used by `latex_escape`'s
whitespace-collapsing regex. -/
def isHWs (c : Char) : Bool :=
  c = ' ' || c = '\t' || c = '\x0c' || c = '\x0b'

/-- The accented letters enumerated by the program's own regex classes
(`color_first_letter`, `dropcap_first_word`). -/
def accentedLatin : List Char :=
  ['Á','É','Í','Ó','Ú','À','È','Ì','Ò','Ù','Â','Ê','Î','Ô','Û','Ä','Ë','Ï','Ö','Ü',
   'á','é','í','ó','ú','à','è','ì','ò','ù','â','ê','î','ô','û','ä','ë','ï','ö','ü']

/-- Model of Python `str.isalpha` / letter classes, restricted to ASCII
letters plus `accentedLatin`. -/
def latinLetter (c : Char) : Bool :=
  c.isAlpha || accentedLatin.contains c

/-- Model of Python regex `\w` (word character). -/
def pyIsWord (c : Char) : Bool :=
  latinLetter c || c.isDigit || c = '_'

/-- Lower-casing used to model `re.IGNORECASE` (ASCII plus the accented
characters that the program's case-insensitive patterns can meet). -/
def lowerExtChar (c : Char) : Char :=
  if c = 'Í' then 'í' else c.toLower

/-- Punctuation class of `latex_escape`'s tidy-up regex `[.,;:?!]`. -/
def punctChar (c : Char) : Bool :=
  c = '.' || c = ',' || c = ';' || c = ':' || c = '?' || c = '!'

/-! ### List utilities -/

/-- `leadsWith p l` : `p` is a prefix of `l`. -/
def leadsWith : List Char → List Char → Bool
  | [], _ => true
  | _ :: _, [] => false
  | a :: as, b :: bs => a = b && leadsWith as bs

/-- Substring test (`needle in hay` in Python). -/
def containsSeq (needle hay : List Char) : Bool :=
  hay.tails.any (fun t => leadsWith needle t)

def containsS (needle hay : String) : Bool :=
  containsSeq needle.data hay.data

def endsWithSeq (needle hay : List Char) : Bool :=
  leadsWith needle.reverse hay.reverse

/-- Remove the longest suffix of characters satisfying `p`
(Python `str.rstrip`). -/
def rstripBy (p : Char → Bool) : List Char → List Char
  | [] => []
  | c :: cs =>
    match rstripBy p cs with
    | [] => if p c then [] else [c]
    | r => c :: r

/-- Python `str.strip()` (no argument). -/
def pyStrip (l : List Char) : List Char :=
  rstripBy isPyWs (l.dropWhile isPyWs)

def pyStripS (s : String) : String :=
  String.mk (pyStrip s.data)

/-- `re.sub(r'[ \t\f\v]+', ' ', ·)`: each maximal run of horizontal
whitespace becomes a single space. -/
def collapseWs : List Char → List Char
  | [] => []
  | [c] => [if isHWs c then ' ' else c]
  | c :: d :: cs =>
    if isHWs c && isHWs d then collapseWs (d :: cs)
    else (if isHWs c then ' ' else c) :: collapseWs (d :: cs)

/-- `re.sub(r'\s+([.,;:?!])', r'\1', ·)`: drop whitespace that stands
(possibly through more whitespace) immediately before punctuation. -/
def punctFix : List Char → List Char
  | [] => []
  | c :: cs =>
    if isPyWs c && (match cs.dropWhile isPyWs with
                    | d :: _ => punctChar d
                    | [] => false)
    then punctFix cs
    else c :: punctFix cs

/-! ### html.unescape model -/

/-- Entities recognised by the `html.unescape` model. -/
def entityTable : List (List Char × Char) :=
  [("amp;".data, '&'), ("lt;".data, '<'), ("gt;".data, '>'), ("quot;".data, '"'),
   ("apos;".data, '\x27'), ("nbsp;".data, '\xa0'), ("#38;".data, '&'), ("#160;".data, '\xa0')]

/-- Try to read one entity just after an ampersand; returns the decoded
character and how many characters were consumed. -/
def findEntity (cs : List Char) : Option (Char × Nat) :=
  entityTable.findSome? (fun pc => if leadsWith pc.1 cs then some (pc.2, pc.1.length) else none)

def htmlUnescapeAux : Nat → List Char → List Char
  | 0, _ => []
  | _, [] => []
  | fuel + 1, c :: cs =>
    if c = '&' then
      match findEntity cs with
      | some dk => dk.1 :: htmlUnescapeAux fuel (cs.drop dk.2)
      | none => '&' :: htmlUnescapeAux fuel cs
    else c :: htmlUnescapeAux fuel cs

/-- Model of Python `html.unescape` (identity on text without `&`). -/
def htmlUnescape (l : List Char) : List Char :=
  htmlUnescapeAux (l.length + 1) l

/-! ### Text Normalizer -/

/-- The per-character LaTeX escape table of `latex_escape`. -/
def escChar : Char → List Char
  | '\\' => "\\textbackslash\x7b\x7d".data
  | '\x7b' => "\\\x7b".data
  | '\x7d' => "\\\x7d".data
  | '#' => "\\#".data
  | '$' => "\\$".data
  | '%' => "\\%".data
  | '&' => "\\&".data
  | '_' => "\\_".data
  | '^' => "\\^\x7b\x7d".data
  | '~' => "\\~\x7b\x7d".data
  | c => [c]

/-- `latex_escape` from `main.py`: unescape HTML entities, NBSP to space,
strip trailing newlines, escape LaTeX specials, collapse horizontal
whitespace, drop whitespace before punctuation, strip.  `None` maps to
the empty string. -/
def latex_escape : Option String → String
  | none => ""
  | some s =>
    let l1 := htmlUnescape s.data
    let l2 := l1.map (fun c => if c = '\xa0' then ' ' else c)
    let l3 := rstripBy (fun c => c = '\n') l2
    let l4 := (l3.map escChar).flatten
    let l5 := collapseWs l4
    let l6 := punctFix l5
    String.mk (pyStrip l6)

/-! ### Quote normalization -/

/-- First pass of `fix_quotes_for_latex`: straight double quotes alternate
between \x60\x60 and \x27\x27. -/
def fixDoubles : Bool → List Char → List Char
  | _, [] => []
  | opn, c :: cs =>
    if c = '"' then
      (if opn then ['\x60', '\x60'] else ['\x27', '\x27']) ++ fixDoubles (!opn) cs
    else c :: fixDoubles opn cs

/-- Second pass: straight single quotes toggle, except after a letter
(apostrophe).  `prev` is the previous character of the pass-1 text. -/
def fixSingles : Option Char → Bool → List Char → List Char
  | _, _, [] => []
  | prev, opn, c :: cs =>
    if c = '\x27' then
      if (match prev with | some p => latinLetter p | none => false) then
        c :: fixSingles (some c) opn cs
      else
        (if opn then '\x60' else '\x27') :: fixSingles (some c) (!opn) cs
    else c :: fixSingles (some c) opn cs

/-- `fix_quotes_for_latex` from `main.py`. -/
def fix_quotes_for_latex (s : String) : String :=
  if s = "" then s
  else String.mk (fixSingles none true (fixDoubles true s.data))

/-! ### Row Merger -/

/-- The literal alternative of `_starts_with_response_token`'s regex:
an already-substituted colored marker prefix. -/
def respTokenLit : List Char :=
  "\\textcolor\x7bgregoriocolor\x7d\x7b\\Rbar\x7d".data

/-- `_starts_with_response_token` from `main.py`: after optional
whitespace, either `[Rr]\s*\.` or the literal `respTokenLit`. -/
def _starts_with_response_token (s : String) : Bool :=
  if s = "" then false
  else
    let l := s.data.dropWhile isPyWs
    (match l with
     | c :: cs =>
       (c = 'R' || c = 'r') &&
         (match cs.dropWhile isPyWs with
          | '.' :: _ => true
          | _ => false)
     | [] => false)
    || leadsWith respTokenLit l

/-- `(a + ' ' + b).strip()` as used by `merge_response_rows`. -/
def pyConcatStrip (a b : String) : String :=
  String.mk (pyStrip (a.data ++ ' ' :: b.data))

/-- One iteration of the `merge_response_rows` loop: either merge the
incoming pair into the last accumulated pair (per side) or push it. -/
def merge_step (merged : List (String × String)) (p : String × String) :
    List (String × String) :=
  if !merged.isEmpty &&
     (_starts_with_response_token p.1 || _starts_with_response_token p.2) then
    match merged.getLast? with
    | some prev =>
      let s1 := if _starts_with_response_token p.1 then
                  (pyConcatStrip prev.1 p.1, prev.2) else prev
      let s2 := if _starts_with_response_token p.2 then
                  (s1.1, pyConcatStrip s1.2 p.2) else s1
      merged.dropLast ++ [s2]
    | none => merged ++ [p]
  else merged ++ [p]

/-- `merge_response_rows` from `main.py`. -/
def merge_response_rows (pairs : List (String × String)) : List (String × String) :=
  pairs.foldl merge_step []

/-! ### Symbol Substitutor -/

/-- Match `D[eé]o\s+gr[aá]ti[aá]s\.` at the head of `l`; returns the
matched characters. -/
def matchDeoPhrase (l : List Char) : Option (List Char) :=
  match l with
  | 'D' :: e :: 'o' :: rest =>
    if e = 'e' || e = 'é' then
      let ws := rest.takeWhile isPyWs
      if ws.isEmpty then none
      else
        match rest.drop ws.length with
        | 'g' :: 'r' :: a1 :: 't' :: 'i' :: a2 :: 's' :: '.' :: _ =>
          if (a1 = 'a' || a1 = 'á') && (a2 = 'a' || a2 = 'á') then
            some ('D' :: e :: 'o' :: (ws ++ ['g', 'r', a1, 't', 'i', a2, 's', '.']))
          else none
        | _ => none
    else none
  | _ => none

/-- Match `Thanks\s+be\s+to\s+God\.` at the head of `l`. -/
def matchThanksPhrase (l : List Char) : Option (List Char) :=
  if leadsWith "Thanks".data l then
    let r1 := l.drop 6
    let w1 := r1.takeWhile isPyWs
    if w1.isEmpty then none
    else
      let r2 := r1.drop w1.length
      if leadsWith "be".data r2 then
        let r3 := r2.drop 2
        let w2 := r3.takeWhile isPyWs
        if w2.isEmpty then none
        else
          let r4 := r3.drop w2.length
          if leadsWith "to".data r4 then
            let r5 := r4.drop 2
            let w3 := r5.takeWhile isPyWs
            if w3.isEmpty then none
            else
              let r6 := r5.drop w3.length
              if leadsWith "God.".data r6 then
                some ("Thanks".data ++ w1 ++ "be".data ++ w2 ++ "to".data ++ w3 ++ "God.".data)
              else none
          else none
      else none
  else none

/-- Match `[Rr]\s*\.\s*(phrase)?` at the head of `l` (the `\b` guard is
checked by the caller).  Returns the optional phrase group and the
number of characters consumed beyond the mandatory `R` and `.`. -/
def matchRespAt (phr : List Char → Option (List Char)) (l : List Char) :
    Option (Option (List Char) × Nat) :=
  match l with
  | c :: cs =>
    if c = 'R' || c = 'r' then
      let ws1 := (cs.takeWhile isPyWs).length
      match cs.drop ws1 with
      | '.' :: cs2 =>
        let ws2 := (cs2.takeWhile isPyWs).length
        match phr (cs2.drop ws2) with
        | some ph => some (some ph, ws1 + ws2 + ph.length)
        | none => some (none, ws1 + ws2)
      | _ => none
    else none
  | [] => none

/-- The replacement's fixed prefix
`\textcolor{gregoriocolor}{\Rbar.}~` (braces written literally). -/
def respBase : List Char :=
  "\\textcolor\x7bgregoriocolor\x7d\x7b\\Rbar.\x7d~".data

/-- The scan of `pattern.sub`: positions advance left to right, each
non-overlapping match (with `\b` before the `R`) is replaced by
`respBase` plus the captured phrase (or the fresh canonical phrase). -/
def subRespAux (phr : List Char → Option (List Char)) (fresh : List Char)
    (l : List Char) : Nat → Nat → List Char
  | 0, _ => []
  | fuel + 1, i =>
    if i < l.length then
      let prevOk := if i = 0 then true
                    else match l.get? (i - 1) with
                         | some p => !(pyIsWord p)
                         | none => true
      if prevOk then
        match matchRespAt phr (l.drop i) with
        | some g =>
          respBase ++ (match g.1 with | some ph => ph | none => fresh) ++
            subRespAux phr fresh l fuel (i + 2 + g.2)
        | none => l.getD i ' ' :: subRespAux phr fresh l fuel (i + 1)
      else l.getD i ' ' :: subRespAux phr fresh l fuel (i + 1)
    else []

/-- The fresh Latin phrase `Deo gr\'atias.` appended when the source did
not already spell the phrase out. -/
def freshLatin : List Char := "Deo gr\\\x27atias.".data

def freshEnglish : List Char := "Thanks be to God.".data

/-- `replace_response_symbols_latin` from `main.py`. -/
def replace_response_symbols_latin (s : String) : String :=
  if s = "" then s
  else String.mk (subRespAux matchDeoPhrase freshLatin s.data (s.data.length + 1) 0)

/-- `replace_response_symbols_english` from `main.py`. -/
def replace_response_symbols_english (s : String) : String :=
  if s = "" then s
  else String.mk (subRespAux matchThanksPhrase freshEnglish s.data (s.data.length + 1) 0)

/-! ### Document Extractor: preface row scan -/

/-- Cell normalization applied by `parse_file` to each `td`:
`fix_quotes_for_latex(latex_escape(clean_text(td)))`; the raw cell text
(the `clean_text` output) is the input here. -/
def normCell (raw : String) : String :=
  fix_quotes_for_latex (latex_escape (some raw))

/-- The preface-row scan of `parse_file` (lines 304-318): first direct
child row with exactly two cells, both normalized texts non-empty, and
one of the marker substrings present.  Rows are given as lists of raw
cell texts. -/
def prefaceScan : List (List String) → Option (String × String)
  | [] => none
  | tds :: rest =>
    match tds with
    | [a, b] =>
      let l := normCell a
      let r := normCell b
      if l ≠ "" && r ≠ "" &&
         (containsS "Luna" l || containsS "Kaléndis" l ||
          containsS "January" r || containsS "Day of the Moon" r)
      then some (l, r)
      else prefaceScan rest
    | _ => prefaceScan rest

/-! ### Document Extractor: conclusion filter -/

/-- `CONCLUSION_LAT_RE = re.compile(r'Et\s+al[ií]bi', re.IGNORECASE)`,
tried at one position. -/
def matchEtAlibiAt (l : List Char) : Bool :=
  match l with
  | e :: t :: rest =>
    (lowerExtChar e = 'e') && (lowerExtChar t = 't') &&
    (let ws := rest.takeWhile isPyWs
     !ws.isEmpty &&
     (match rest.drop ws.length with
      | a :: lc :: i1 :: b :: i2 :: _ =>
        (lowerExtChar a = 'a') && (lowerExtChar lc = 'l') &&
        (lowerExtChar i1 = 'i' || lowerExtChar i1 = 'í') &&
        (lowerExtChar b = 'b') && (lowerExtChar i2 = 'i')
      | _ => false))
  | _ => false

/-- `CONCLUSION_LAT_RE.search(L)`. -/
def searchEtAlibi (s : String) : Bool :=
  s.data.tails.any matchEtAlibiAt

/-- `CONCLUSION_ENG_RE = re.compile(r'^\s*And elsewhere', re.IGNORECASE)`,
via `.search` (anchored by `^`). -/
def searchAndElsewhere (s : String) : Bool :=
  leadsWith ("and elsewhere".data) ((s.data.dropWhile isPyWs).map lowerExtChar)

/-- `is_conclusion_pair` from `parse_file`. -/
def is_conclusion_pair (L R : String) : Bool :=
  (searchEtAlibi L && (containsS "R." L || containsS "Deo gr" L)) ||
  (searchAndElsewhere R && (containsS "R." R || containsS "Thanks be to God" R))

/-- `is_jan_first` from `parse_file`: lower-cased path contains
`[/\]mart01[/\]` and ends with `mart0101.htm(l)`. -/
def sepMart01At (l : List Char) : Bool :=
  match l with
  | s1 :: 'm' :: 'a' :: 'r' :: 't' :: '0' :: '1' :: s2 :: _ =>
    (s1 = '/' || s1 = '\\') && (s2 = '/' || s2 = '\\')
  | _ => false

def is_jan_first (p : String) : Bool :=
  let pl := p.data.map lowerExtChar
  pl.tails.any sepMart01At &&
  (endsWithSeq "mart0101.htm".data pl || endsWithSeq "mart0101.html".data pl)

/-- The conclusion-row filter of `parse_file` (lines 339-341). -/
def filter_conclusion_pairs (path : String) (body_pairs : List (String × String)) :
    List (String × String) :=
  if is_jan_first path then body_pairs
  else body_pairs.filter (fun pr => !(is_conclusion_pair pr.1 pr.2))

/-! ### Markup Emitter: body block -/

/-- `dropcap_first_word` from `main.py`. -/
def dropcap_first_word (s : String) : String :=
  if s = "" then "~"
  else
    match s.data.dropWhile isPyWs with
    | c :: cs =>
      if latinLetter c then
        let word := cs.takeWhile (fun d => !isPyWs d)
        let rem := (cs.dropWhile (fun d => !isPyWs d)).dropWhile isPyWs
        String.mk ("\\lettrine[lines=2]\x7b".data ++ [c] ++ "\x7d\x7b".data ++ word ++
                   "\x7d".data ++ (if rem.isEmpty then [] else ' ' :: rem))
      else s
    | [] => s

/-- The six output lines emitted per body pair by
`emit_body_paracol_with_dropcaps`'s loop. -/
def bodyPairLines (first : Bool) (p : String × String) : List String :=
  let left := if first then (if p.1 ≠ "" then dropcap_first_word p.1 else "~")
              else (if p.1 ≠ "" then p.1 else "~")
  let right := if first then (if p.2 ≠ "" then dropcap_first_word p.2 else "~")
               else (if p.2 ≠ "" then p.2 else "~")
  [left, "\\switchcolumn", "\\selectlanguage\x7benglish\x7d", right,
   "\\switchcolumn*", "\\selectlanguage\x7blatin\x7d"]

/-- The loop of `emit_body_paracol_with_dropcaps`, threading the
`first_pair` flag. -/
def bodyLoop : Bool → List (String × String) → List String
  | _, [] => []
  | first, p :: rest => bodyPairLines first p ++ bodyLoop false rest

/-- `emit_body_paracol_with_dropcaps` from `main.py`. -/
def emit_body_paracol_with_dropcaps (pairs : List (String × String)) : String :=
  let norm := pairs.map (fun p =>
    (replace_response_symbols_latin p.1, replace_response_symbols_english p.2))
  let merged := merge_response_rows norm
  String.intercalate "\n"
    (["\\begin\x7bparacol\x7d\x7b2\x7d", "\\selectlanguage\x7blatin\x7d"] ++
     bodyLoop true merged ++ ["\\end\x7bparacol\x7d"])

/-! ### Markup Emitter: letter tables -/

def pyIsDigitStr (s : String) : Bool :=
  !s.data.isEmpty && s.data.all Char.isDigit

def pyIsAlphaStr (s : String) : Bool :=
  !s.data.isEmpty && s.data.all latinLetter

def colorCmd (s : String) : String :=
  "\\textcolor\x7bgregoriocolor\x7d\x7b" ++ s ++ "\x7d"

/-- `_color_cell_for_letters` from `main.py`. -/
def _color_cell_for_letters (cell : String) (treat : Bool) : String :=
  let s := pyStripS cell
  if s = "" then s
  else if pyIsDigitStr s then s
  else if s.length = 1 && pyIsAlphaStr s then
    (if treat && s = "F" then "__FIRST_F__" else colorCmd s)
  else if pyIsAlphaStr s then
    (if treat && s = "F" then "__FIRST_F__" else colorCmd s)
  else s

/-- One row of the coloring loop in `emit_letter_tables_compact_no_border`;
`done` is the `first_F_done` flag. -/
def colorRowStep (treat : Bool) : Bool → List String → (List String × Bool)
  | done, [] => ([], done)
  | done, cell :: rest =>
    let v := _color_cell_for_letters cell (treat && !done)
    if v = "__FIRST_F__" then
      let rd := colorRowStep treat true rest
      ("F" :: rd.1, rd.2)
    else
      let rd := colorRowStep treat done rest
      (v :: rd.1, rd.2)

/-- All rows of one table, threading `first_F_done` across rows. -/
def colorRowsAux (treat : Bool) : Bool → List (List String) → List (List String)
  | _, [] => []
  | done, r :: rs =>
    let rd := colorRowStep treat done r
    rd.1 :: colorRowsAux treat rd.2 rs

def maxRowLen (tb : List (List String)) : Nat :=
  tb.foldl (fun m r => max m r.length) 0

def padRow (n : Nat) (r : List String) : List String :=
  r ++ List.replicate (n - r.length) ""

def tabRowLine (cr : List String) : String :=
  " " ++ String.intercalate " & " cr ++ " \\\\"

def coldefStr (n : Nat) : String :=
  "*\x7b" ++ toString n ++ "\x7d\x7b>\x7b\\centering\\arraybackslash\x7dX\x7d"

def tabHeader (n : Nat) : String :=
  "\\noindent\\begin\x7btabularx\x7d\x7b\\linewidth\x7d\x7b" ++ coldefStr n ++ "\x7d"

/-- The per-table loop of `emit_letter_tables_compact_no_border`
(`idx` is `t_index`, `total` is `len(tables)`). -/
def emitTablesAux (total : Nat) : Nat → List (List (List String)) → List String
  | _, [] => []
  | idx, tb :: rest =>
    let tailOut := emitTablesAux total (idx + 1) rest
    if tb.isEmpty then tailOut
    else
      let ncols := maxRowLen tb
      let colored := colorRowsAux (idx == 1) false (tb.map (padRow ncols))
      [tabHeader ncols] ++ colored.map tabRowLine ++ ["\\end\x7btabularx\x7d"] ++
        (if idx ≠ total - 1 then ["\\vspace\x7b0.5\\baselineskip\x7d"] else []) ++ tailOut

/-- `emit_letter_tables_compact_no_border` from `main.py`. -/
def emit_letter_tables_compact_no_border (tables : List (List (List String))) : String :=
  if tables.isEmpty then ""
  else String.intercalate "\n" (emitTablesAux tables.length 0 tables)

/-! ### Markup Emitter: month transitions -/

def MONTHS_LA : List String :=
  ["Ianuarius", "Februarius", "Martius", "Aprilis", "Maius", "Iunius",
   "Iulius", "Augustus", "September", "October", "November", "December"]

def MONTHS_EN : List String :=
  ["January", "February", "March", "April", "May", "June",
   "July", "August", "September", "October", "November", "December"]

/-- `os.path.split` (POSIX): split at the last `/`; the head keeps no
trailing slash unless it is all slashes. -/
def os_path_split (p : String) : String × String :=
  let r := p.data.reverse
  let tl := (r.takeWhile (fun c => c ≠ '/')).reverse
  let headRaw := (r.dropWhile (fun c => c ≠ '/')).reverse
  let hd := if !headRaw.isEmpty && headRaw.any (fun c => c ≠ '/')
            then rstripBy (fun c => c = '/') headRaw
            else headRaw
  (String.mk hd, String.mk tl)

/-- `re.match(r'martyrology/mart(\d\d)', base, re.I)`: prefix match only. -/
def matchMartPrefix (l : List Char) : Option Nat :=
  let low := l.map lowerExtChar
  if leadsWith "martyrology/mart".data low then
    match low.drop 16 with
    | d1 :: d2 :: _ =>
      if d1.isDigit && d2.isDigit then
        some ((d1.toNat - 48) * 10 + (d2.toNat - 48))
      else none
    | _ => none
  else none

/-- `month_from_folder` from `write_latex`:
`base = os.path.basename(os.path.split(path)[0])`, then the (prefix)
regex above, then the 1..12 range check. -/
def month_from_folder (path : String) : Option Nat :=
  let folder := (os_path_split path).1
  let base := (os_path_split folder).2
  match matchMartPrefix base.data with
  | some idx => if 1 ≤ idx && idx ≤ 12 then some idx else none
  | none => none

/-- The three lines written at a month boundary by `write_latex`. -/
def month_boundary_directive (idx : Nat) : List String :=
  ["\\cleartorecto",
   "\\gdef\\LatinMonth\x7b" ++ MONTHS_LA.getD (idx - 1) "" ++ "\x7d",
   "\\gdef\\EnglishMonth\x7b" ++ MONTHS_EN.getD (idx - 1) "" ++ "\x7d"]

/-- The `current_month` fold of `write_latex`: the list of month indices
for which a month-boundary directive is emitted, in order. -/
def monthTransitions (paths : List String) : List Nat :=
  (paths.foldl
    (fun st path =>
      match month_from_folder path with
      | some i => if some i ≠ st.1 then (some i, st.2 ++ [i]) else st
      | none => st)
    ((none : Option Nat), ([] : List Nat))).2

/-! ### Spec-side definitions (claim-language renderings, for comparison
with the source-derived definitions above) -/

/-- Amended C4 condition, following the claim's words plus the
both-cells-non-empty requirement the code actually imposes: exactly two
cells, both normalized texts non-empty, and a Latin marker in the left
or an English marker in the right. -/
def prefaceRowPred (tds : List String) : Bool :=
  tds.length == 2 &&
  (let l := normCell (tds.headD "")
   let r := normCell (tds.getD 1 "")
   l ≠ "" && r ≠ "" &&
   (containsS "Luna" l || containsS "Kaléndis" l ||
    containsS "January" r || containsS "Day of the Moon" r))

/-- The pair of normalized cell texts of a two-cell row. -/
def prefacePair (tds : List String) : String × String :=
  (normCell (tds.headD ""), normCell (tds.getD 1 ""))

/-- Claim-language body rendering: the first (post-merge) pair gets the
drop-capital treatment on each non-empty side, every later pair is
emitted as its bare text, and an empty side renders as `~`. -/
def bodySpecRender : List (String × String) → List String
  | [] => []
  | p :: rest =>
    ([if p.1 = "" then "~" else dropcap_first_word p.1, "\\switchcolumn",
      "\\selectlanguage\x7benglish\x7d",
      if p.2 = "" then "~" else dropcap_first_word p.2,
      "\\switchcolumn*", "\\selectlanguage\x7blatin\x7d"]) ++
    rest.flatMap (fun q =>
      [if q.1 = "" then "~" else q.1, "\\switchcolumn",
       "\\selectlanguage\x7benglish\x7d",
       if q.2 = "" then "~" else q.2,
       "\\switchcolumn*", "\\selectlanguage\x7blatin\x7d"])

/-- Rendering of a letter-grid cell with no first-F rule in force. -/
def plainCell (c : String) : String :=
  _color_cell_for_letters c false

/-- A cell that strips to the single uppercase letter `F`. -/
def isFCell (c : String) : Bool :=
  pyStripS c == "F"

/-- Index of the first `F` cell of a row, if any. -/
def firstFIdx : List String → Option Nat
  | [] => none
  | c :: cs => if isFCell c then some 0 else (firstFIdx cs).map (· + 1)

/-- Claim-language rendering of the special (index 1) grid: the
row-major first `F` cell is rendered uncolored, every other cell is
rendered plainly (letters colored, digits not). -/
def specRowsRender : List (List String) → List (List String)
  | [] => []
  | r :: rs =>
    match firstFIdx r with
    | none => r.map plainCell :: specRowsRender rs
    | some j =>
      ((r.take j).map plainCell ++ "F" :: (r.drop (j + 1)).map plainCell) ::
        rs.map (fun row => row.map plainCell)

/-- Claim-language table emission: like `emitTablesAux` but rendering the
grid at zero-based index 1 with `specRowsRender` and every other grid
with the plain cell map. -/
def specEmitTablesAux (total : Nat) : Nat → List (List (List String)) → List String
  | _, [] => []
  | idx, tb :: rest =>
    let tailOut := specEmitTablesAux total (idx + 1) rest
    if tb.isEmpty then tailOut
    else
      let ncols := maxRowLen tb
      let rendered := if idx == 1 then specRowsRender (tb.map (padRow ncols))
                      else (tb.map (padRow ncols)).map (fun row => row.map plainCell)
      [tabHeader ncols] ++ rendered.map tabRowLine ++ ["\\end\x7btabularx\x7d"] ++
        (if idx ≠ total - 1 then ["\\vspace\x7b0.5\\baselineskip\x7d"] else []) ++ tailOut

/-- Claim-language counterpart of `emit_letter_tables_compact_no_border`. -/
def specEmitLetterTables (tables : List (List (List String))) : String :=
  if tables.isEmpty then ""
  else String.intercalate "\n" (specEmitTablesAux tables.length 0 tables)

/-- A side has no leading whitespace character. -/
def leadWsFree (s : String) : Prop :=
  match s.data with
  | [] => True
  | c :: _ => isPyWs c = false

instance (s : String) : Decidable (leadWsFree s) := by
  unfold leadWsFree
  match s.data with
  | [] => exact inferInstanceAs (Decidable True)
  | c :: _ => exact inferInstanceAs (Decidable (isPyWs c = false))

/-- Number of occurrences of `needle` as a substring of `hay`
(counting distinct start positions). -/
def countSubstr (needle hay : String) : Nat :=
  hay.data.tails.countP (fun t => leadsWith needle.data t)

/-- Adjacent horizontal-whitespace characters never occur. -/
def noTwoAdjHWs : List Char → Bool
  | [] => true
  | [_] => true
  | c :: d :: cs => !(isHWs c && isHWs d) && noTwoAdjHWs (d :: cs)

/-! ### Theorems -/

/-- Claim C1: the Row Merger's detector must recognize both the raw
`R.`/`r.` prefix and the substituted colored-marker prefix.  It does
recognize the raw prefix and the literal `\textcolor{gregoriocolor}{\Rbar}`
(period outside the braces, as the substitutor's docstring promises), but
the substitutor actually emits `\textcolor{gregoriocolor}{\Rbar.}` with the
period inside the braces, which the detector does not match — so merging
does not fire after substitution. -/
theorem response_token_detector_misses_substituted_marker :
    _starts_with_response_token " R. foo" = true ∧
    _starts_with_response_token "r .x" = true ∧
    replace_response_symbols_latin "R." =
      "\\textcolor\x7bgregoriocolor\x7d\x7b\\Rbar.\x7d~Deo gr\\\x27atias." ∧
    _starts_with_response_token (replace_response_symbols_latin "R.") = false ∧
    _starts_with_response_token
      "\\textcolor\x7bgregoriocolor\x7d\x7b\\Rbar\x7d.~Deo gr\\\x27atias." = true ∧
    (merge_response_rows [(replace_response_symbols_latin "Lorem ipsum", "x"),
                          (replace_response_symbols_latin "R.", "")]).length = 2 := by
  decide

/-- Claim C2: `month_from_folder` applies the prefix regex
`martyrology/mart(\d\d)` to the basename of the folder (for example
`mart01`), which can never match; on the paths the program itself
constructs no month index is ever detected and no month-boundary
directive is ever written. -/
theorem month_boundary_directive_never_emitted :
    month_from_folder "martyrology/mart01/mart0131.htm" = none ∧
    month_from_folder "martyrology/mart02/mart0201.htm" = none ∧
    monthTransitions ["martyrology/mart01/mart0131.htm",
                      "martyrology/mart02/mart0201.htm"] = [] := by
  decide

/-- Claim C5: the conclusion-row pattern `Et\s+al[ií]bi` accepts `alibi`
and `alíbi` but not the accented spelling `álibi` used by the function's
own docstring; a Latin-only conclusion row spelled `Et álibi …` is
therefore retained on a non-January-1 document although the claim says it
is removed. -/
theorem conclusion_filter_misses_accented_alibi :
    is_conclusion_pair "Et álibi plurimórum R. Deo grátias." "" = false ∧
    is_conclusion_pair "Et alíbi plurimórum R. Deo grátias." "" = true ∧
    is_jan_first "martyrology/mart02/mart0202.htm" = false ∧
    filter_conclusion_pairs "martyrology/mart02/mart0202.htm"
        [("Et álibi plurimórum R. Deo grátias.", "")] =
      [("Et álibi plurimórum R. Deo grátias.", "")] := by
  decide

/-- Counterexample to claim C3: `latex_escape` is not idempotent; on `#`
the first pass produces an escape sequence whose backslash is escaped
again by the second pass. -/
theorem latex_escape_not_idempotent_on_hash :
    latex_escape (some (latex_escape (some "#"))) ≠ latex_escape (some "#") := by
  decide

/-- Counterexample to claim C4: a two-cell row whose normalized left cell
contains the marker `Luna` but whose right cell is empty satisfies the
claim's disjunction yet is not selected as the preface row, because the
code additionally requires both normalized cells to be non-empty. -/
theorem preface_row_skipped_when_right_cell_empty :
    prefaceScan [["Luna prima", ""]] = none ∧
    containsS "Luna" (normCell "Luna prima") = true ∧
    normCell "Luna prima" ≠ "" ∧ normCell "" = "" := by
  decide

/-- Counterexample to claim C9: when the first pair's left side begins
with whitespace, merging strips the concatenation, so the first output
pair no longer begins with the first input pair's left side. -/
theorem merge_first_pair_prefix_fails_on_leading_space :
    merge_response_rows [(" a", ""), ("R. x", "")] = [("a R. x", "")] ∧
    leadsWith " a".data "a R. x".data = false := by
  decide

theorem prefaceScan_cons_pair (a b : String) (rest : List (List String)) :
    prefaceScan ([a, b] :: rest) =
      if prefaceRowPred [a, b] then some (prefacePair [a, b]) else prefaceScan rest := rfl

/-- Claim C4 (amended): the preface row is the first two-cell row whose
normalized cells are both non-empty and carry one of the markers; the
scan returns exactly the first row satisfying `prefaceRowPred`. -/
theorem preface_scan_finds_first_marked_row (rows : List (List String)) :
    prefaceScan rows = (rows.find? prefaceRowPred).map prefacePair := by
  induction rows with
  | nil => rfl
  | cons tds rest ih =>
    rcases tds with _ | ⟨a, _ | ⟨b, _ | ⟨c, t⟩⟩⟩
    · rw [List.find?_cons_of_neg _ (by simp [prefaceRowPred])]
      exact ih
    · rw [List.find?_cons_of_neg _ (by simp [prefaceRowPred])]
      exact ih
    · rw [prefaceScan_cons_pair]
      by_cases hp : prefaceRowPred [a, b] = true
      · rw [if_pos hp, List.find?_cons_of_pos _ hp]
        rfl
      · rw [if_neg hp, List.find?_cons_of_neg _ hp]
        exact ih
    · rw [List.find?_cons_of_neg _ (by simp [prefaceRowPred])]
      exact ih

theorem bodyPairLines_true (p : String × String) :
    bodyPairLines true p =
      [if p.1 = "" then "~" else dropcap_first_word p.1, "\\switchcolumn",
       "\\selectlanguage\x7benglish\x7d",
       if p.2 = "" then "~" else dropcap_first_word p.2,
       "\\switchcolumn*", "\\selectlanguage\x7blatin\x7d"] := by
  simp only [bodyPairLines, if_true, ne_eq, ite_not]

theorem bodyPairLines_false (q : String × String) :
    bodyPairLines false q =
      [if q.1 = "" then "~" else q.1, "\\switchcolumn",
       "\\selectlanguage\x7benglish\x7d",
       if q.2 = "" then "~" else q.2,
       "\\switchcolumn*", "\\selectlanguage\x7blatin\x7d"] := by
  simp [bodyPairLines, ite_not]

theorem bodyLoop_false_eq (l : List (String × String)) :
    bodyLoop false l = l.flatMap (fun q =>
      [if q.1 = "" then "~" else q.1, "\\switchcolumn",
       "\\selectlanguage\x7benglish\x7d",
       if q.2 = "" then "~" else q.2,
       "\\switchcolumn*", "\\selectlanguage\x7blatin\x7d"]) := by
  induction l with
  | nil => rfl
  | cons q rest ih => rw [bodyLoop, bodyPairLines_false, List.flatMap_cons, ih]

theorem bodyLoop_true_eq (l : List (String × String)) :
    bodyLoop true l = bodySpecRender l := by
  cases l with
  | nil => rfl
  | cons p rest =>
    rw [bodyLoop, bodyPairLines_true, bodyLoop_false_eq, bodySpecRender]

/-- Claim C6: in the body block only the first post-merge pair receives
the drop-capital treatment on each non-empty side; every later pair is
emitted as its bare (substituted, merged) text, and an empty side renders
as the placeholder `~`. -/
theorem emit_body_first_pair_only_dropcaps (pairs : List (String × String)) :
    emit_body_paracol_with_dropcaps pairs =
      String.intercalate "\n"
        (["\\begin\x7bparacol\x7d\x7b2\x7d", "\\selectlanguage\x7blatin\x7d"] ++
         bodySpecRender (merge_response_rows (pairs.map (fun p =>
           (replace_response_symbols_latin p.1, replace_response_symbols_english p.2)))) ++
         ["\\end\x7bparacol\x7d"]) := by
  simp only [emit_body_paracol_with_dropcaps]
  rw [bodyLoop_true_eq]

theorem matchRespAt_none_of_not_Rr (phr : List Char → Option (List Char))
    (c : Char) (cs : List Char) (h1 : c ≠ 'R') (h2 : c ≠ 'r') :
    matchRespAt phr (c :: cs) = none := by
  simp [matchRespAt, h1, h2]

theorem subRespAux_copy_all (phr : List Char → Option (List Char))
    (fresh : List Char) (l : List Char)
    (h : ∀ c ∈ l, c ≠ 'R' ∧ c ≠ 'r') :
    ∀ fuel i, subRespAux phr fresh l fuel i = (l.drop i).take fuel := by
  intro fuel
  induction fuel with
  | zero => intro i; rfl
  | succ fuel ih =>
    intro i
    by_cases hi : i < l.length
    · have hdrop : l.drop i = l.getD i ' ' :: l.drop (i + 1) := by
        rw [List.getD_eq_getElem _ _ hi]
        exact List.drop_eq_getElem_cons hi
      have hmem : l.getD i ' ' ∈ l := by
        rw [List.getD_eq_getElem _ _ hi]
        exact List.getElem_mem hi
      have hnone : matchRespAt phr (l.drop i) = none := by
        rw [hdrop]
        exact matchRespAt_none_of_not_Rr phr _ _ (h _ hmem).1 (h _ hmem).2
      rw [subRespAux, if_pos hi]
      simp only [hnone]
      rw [ite_self, ih (i + 1)]
      rw [hdrop, List.take_succ_cons]
    · rw [subRespAux, if_neg hi]
      rw [List.drop_of_length_le (Nat.le_of_not_lt hi), List.take_nil]

theorem replace_latin_id_of_no_Rr (s : String)
    (h : ∀ c ∈ s.data, c ≠ 'R' ∧ c ≠ 'r') :
    replace_response_symbols_latin s = s := by
  unfold replace_response_symbols_latin
  by_cases hs : s = ""
  · simp [hs]
  · rw [if_neg hs, subRespAux_copy_all _ _ _ h, List.drop_zero,
      List.take_of_length_le (Nat.le_succ _)]

/-- Claim C8: the Latin Symbol Substitutor replaces each `R.` match by
the colored marker plus the canonical phrase, reusing an already-present
phrase verbatim (no duplication) and appending the fresh phrase
otherwise; text without `R`/`r` is left unchanged. -/
theorem expand_response_latin_spec :
    replace_response_symbols_latin "R. Deo grátias." =
      "\\textcolor\x7bgregoriocolor\x7d\x7b\\Rbar.\x7d~Deo grátias." ∧
    countSubstr "Deo gr" (replace_response_symbols_latin "R. Deo grátias.") = 1 ∧
    replace_response_symbols_latin "R." =
      "\\textcolor\x7bgregoriocolor\x7d\x7b\\Rbar.\x7d~Deo gr\\\x27atias." ∧
    countSubstr "Deo gr" (replace_response_symbols_latin "R.") = 1 ∧
    ∀ s, (∀ c ∈ s.data, c ≠ 'R' ∧ c ≠ 'r') → replace_response_symbols_latin s = s :=
  ⟨by decide, by decide, by decide, by decide, replace_latin_id_of_no_Rr⟩

/-- Witness for C8 at a concrete match-free input. -/
theorem expand_response_latin_spec_witness :
    replace_response_symbols_latin "abc." = "abc." :=
  expand_response_latin_spec.2.2.2.2 "abc." (by decide)

theorem dropWhile_head_not (p : Char → Bool) (l : List Char) (c : Char) (t : List Char)
    (h : l.dropWhile p = c :: t) : p c = false := by
  induction l with
  | nil => simp at h
  | cons a as ih =>
    rw [List.dropWhile_cons] at h
    by_cases hp : p a = true
    · rw [if_pos hp] at h
      exact ih h
    · rw [if_neg hp] at h
      injection h with h1 h2
      subst h1
      simpa using hp

theorem rstripBy_cons_head (p : Char → Bool) (c : Char) (cs : List Char) :
    rstripBy p (c :: cs) = [] ∨ ∃ t, rstripBy p (c :: cs) = c :: t := by
  rw [rstripBy]
  cases hr : rstripBy p cs with
  | nil =>
    by_cases hp : p c = true
    · left
      simp [hp]
    · right
      exact ⟨[], by simp [hp]⟩
  | cons x xs =>
    right
    exact ⟨x :: xs, rfl⟩

theorem rstripBy_idem (p : Char → Bool) (l : List Char) :
    rstripBy p (rstripBy p l) = rstripBy p l := by
  induction l with
  | nil => rfl
  | cons c cs ih =>
    rw [rstripBy]
    cases hr : rstripBy p cs with
    | nil =>
      by_cases hp : p c = true
      · simp [hp, rstripBy]
      · simp [hp, rstripBy]
    | cons x xs =>
      have hx : rstripBy p (x :: xs) = x :: xs := by
        rw [← hr]
        rw [hr] at ih ⊢
        exact ih
      rw [rstripBy, hx]

theorem dropWhile_rstrip_dropWhile (p : Char → Bool) (l : List Char) :
    (rstripBy p (l.dropWhile p)).dropWhile p = rstripBy p (l.dropWhile p) := by
  cases hm : l.dropWhile p with
  | nil => rfl
  | cons c t =>
    have hc : p c = false := dropWhile_head_not p l c t hm
    rcases rstripBy_cons_head p c t with h | ⟨u, h⟩
    · rw [h]
      rfl
    · rw [h, List.dropWhile_cons_of_neg (by simp [hc])]

theorem pyStrip_no_lead (l : List Char) :
    (pyStrip l).dropWhile isPyWs = pyStrip l :=
  dropWhile_rstrip_dropWhile isPyWs l

theorem pyStrip_no_trail (l : List Char) :
    rstripBy isPyWs (pyStrip l) = pyStrip l :=
  rstripBy_idem isPyWs (l.dropWhile isPyWs)

/-- Claim C10: the Text Normalizer is total over the optional input
(`None` maps to the empty string) and its result never carries leading
or trailing whitespace. -/
theorem latex_escape_total_and_trimmed :
    latex_escape none = "" ∧
    ∀ s, ((latex_escape (some s)).data.dropWhile isPyWs = (latex_escape (some s)).data ∧
          rstripBy isPyWs ((latex_escape (some s)).data) = (latex_escape (some s)).data) :=
  ⟨rfl, fun _ => ⟨pyStrip_no_lead _, pyStrip_no_trail _⟩⟩

theorem leadsWith_refl (l : List Char) : leadsWith l l = true := by
  induction l with
  | nil => rfl
  | cons c cs ih => simp [leadsWith, ih]

theorem leadsWith_append (q u w : List Char) (h : leadsWith q u = true) :
    leadsWith q (u ++ w) = true := by
  induction q generalizing u with
  | nil => rfl
  | cons a as ih =>
    cases u with
    | nil => simp [leadsWith] at h
    | cons b bs =>
      simp only [leadsWith, Bool.and_eq_true, decide_eq_true_eq] at h
      simp only [List.cons_append, leadsWith, Bool.and_eq_true, decide_eq_true_eq]
      exact ⟨h.1, ih bs h.2⟩

theorem leadsWith_cons_inv (a : Char) (q l : List Char)
    (h : leadsWith (a :: q) l = true) : ∃ t, l = a :: t ∧ leadsWith q t = true := by
  cases l with
  | nil => simp [leadsWith] at h
  | cons b bs =>
    simp only [leadsWith, Bool.and_eq_true, decide_eq_true_eq] at h
    exact ⟨bs, by rw [h.1], h.2⟩

theorem rstripBy_ne_nil_of_any (p : Char → Bool) (v : List Char)
    (h : v.any (fun c => !p c) = true) : rstripBy p v ≠ [] := by
  induction v with
  | nil => simp at h
  | cons c cs ih =>
    rw [rstripBy]
    cases hr : rstripBy p cs with
    | nil =>
      have hc : p c = false := by
        by_cases hcs : cs.any (fun c => !p c) = true
        · exact absurd hr (ih hcs)
        · simp only [List.any_cons, hcs, Bool.or_false] at h
          simpa using h
      simp [hc]
    | cons x xs => simp

theorem rstripBy_append_any (p : Char → Bool) (u v : List Char)
    (h : v.any (fun c => !p c) = true) :
    rstripBy p (u ++ v) = u ++ rstripBy p v := by
  induction u with
  | nil => rfl
  | cons a u ih =>
    rw [List.cons_append, rstripBy, ih]
    cases hr : rstripBy p v with
    | nil => exact absurd hr (rstripBy_ne_nil_of_any p v h)
    | cons x xs =>
      cases u with
      | nil => rfl
      | cons b u2 => rfl

theorem dropWhile_mem (p : Char → Bool) (l : List Char) (c : Char)
    (h : c ∈ l.dropWhile p) : c ∈ l := by
  induction l with
  | nil => simp at h
  | cons a as ih =>
    rw [List.dropWhile_cons] at h
    by_cases hp : p a = true
    · rw [if_pos hp] at h
      exact List.mem_cons_of_mem a (ih h)
    · rw [if_neg hp] at h
      exact h

theorem tok_has_nonws (x : String) (h : _starts_with_response_token x = true) :
    x.data.any (fun c => !isPyWs c) = true := by
  unfold _starts_with_response_token at h
  by_cases hx : x = ""
  · simp [hx] at h
  · rw [if_neg hx] at h
    cases hm : x.data.dropWhile isPyWs with
    | nil =>
      rw [hm] at h
      exact absurd h (by decide)
    | cons c t =>
      have hc : isPyWs c = false := dropWhile_head_not isPyWs x.data c t hm
      have hmem : c ∈ x.data :=
        dropWhile_mem isPyWs x.data c (hm ▸ List.mem_cons_self c t)
      rw [List.any_eq_true]
      exact ⟨c, hmem, by simp [hc]⟩

theorem leadsWith_pyConcatStrip (q : List Char) (a b : String)
    (hq : ∀ c t, q = c :: t → isPyWs c = false)
    (hpre : leadsWith q a.data = true)
    (hb : b.data.any (fun c => !isPyWs c) = true) :
    leadsWith q (pyConcatStrip a b).data = true := by
  cases q with
  | nil => rfl
  | cons qc qt =>
    have hqc : isPyWs qc = false := hq qc qt rfl
    obtain ⟨t, ht, _⟩ := leadsWith_cons_inv qc qt a.data hpre
    show leadsWith (qc :: qt) (pyStrip (a.data ++ ' ' :: b.data)) = true
    have hany : (' ' :: b.data).any (fun c => !isPyWs c) = true := by
      rw [List.any_cons, hb]
      simp
    rw [pyStrip]
    have hdw : (a.data ++ ' ' :: b.data).dropWhile isPyWs = a.data ++ ' ' :: b.data := by
      rw [ht, List.cons_append]
      exact List.dropWhile_cons_of_neg (by simp [hqc])
    rw [hdw, rstripBy_append_any isPyWs _ _ hany]
    exact leadsWith_append _ _ _ hpre

theorem merge_step_concat (init : List (String × String)) (a p : String × String) :
    merge_step (init ++ [a]) p =
      if _starts_with_response_token p.1 || _starts_with_response_token p.2 then
        init ++ [((if _starts_with_response_token p.1 then pyConcatStrip a.1 p.1 else a.1),
                  (if _starts_with_response_token p.2 then pyConcatStrip a.2 p.2 else a.2))]
      else (init ++ [a]) ++ [p] := by
  unfold merge_step
  have hne : (init ++ [a]).isEmpty = false := by
    cases init <;> rfl
  rw [hne]
  by_cases htok : (_starts_with_response_token p.1 || _starts_with_response_token p.2) = true
  · rw [htok]
    simp only [Bool.not_false, Bool.true_and, if_true, List.getLast?_concat,
      List.dropLast_concat]
    by_cases hl : _starts_with_response_token p.1 = true
    · by_cases hr : _starts_with_response_token p.2 = true
      · simp [hl, hr]
      · simp [hl, hr]
    · by_cases hr : _starts_with_response_token p.2 = true
      · simp [hl, hr]
      · simp [hl, hr]
  · rw [Bool.not_eq_true] at htok
    rw [htok]
    simp

theorem merge_step_ne_nil (acc : List (String × String)) (p : String × String) :
    merge_step acc p ≠ [] := by
  rcases List.eq_nil_or_concat acc with h | ⟨init, a, h⟩
  · subst h
    simp [merge_step]
  · rw [h, List.concat_eq_append, merge_step_concat]
    split <;> simp

theorem merge_step_length (acc : List (String × String)) (p : String × String) :
    (merge_step acc p).length ≤ acc.length + 1 := by
  rcases List.eq_nil_or_concat acc with h | ⟨init, a, h⟩
  · subst h
    simp [merge_step]
  · rw [h, List.concat_eq_append, merge_step_concat]
    split <;> simp

theorem headD_append_left (u v : List (String × String)) (d : String × String)
    (h : u ≠ []) : (u ++ v).headD d = u.headD d := by
  cases u with
  | nil => exact absurd rfl h
  | cons a t => rfl

theorem merge_step_headD (acc : List (String × String)) (p : String × String)
    (q1 q2 : List Char)
    (h1 : ∀ c t, q1 = c :: t → isPyWs c = false)
    (h2 : ∀ c t, q2 = c :: t → isPyWs c = false)
    (hne : acc ≠ [])
    (hL : leadsWith q1 (acc.headD ("", "")).1.data = true)
    (hR : leadsWith q2 (acc.headD ("", "")).2.data = true) :
    leadsWith q1 ((merge_step acc p).headD ("", "")).1.data = true ∧
    leadsWith q2 ((merge_step acc p).headD ("", "")).2.data = true := by
  rcases List.eq_nil_or_concat acc with h | ⟨init, a, h⟩
  · exact absurd h hne
  rw [h, List.concat_eq_append] at hL hR ⊢
  rw [merge_step_concat]
  by_cases htok : (_starts_with_response_token p.1 || _starts_with_response_token p.2) = true
  · rw [if_pos htok]
    cases init with
    | nil =>
      simp only [List.nil_append, List.headD_cons] at hL hR ⊢
      constructor
      · by_cases hl : _starts_with_response_token p.1 = true
        · rw [if_pos hl]
          exact leadsWith_pyConcatStrip q1 a.1 p.1 h1 hL (tok_has_nonws p.1 hl)
        · rw [if_neg hl]
          exact hL
      · by_cases hr : _starts_with_response_token p.2 = true
        · rw [if_pos hr]
          exact leadsWith_pyConcatStrip q2 a.2 p.2 h2 hR (tok_has_nonws p.2 hr)
        · rw [if_neg hr]
          exact hR
    | cons i0 it =>
      rw [headD_append_left _ _ _ (by simp)] at hL hR
      rw [headD_append_left _ _ _ (by simp)]
      exact ⟨hL, hR⟩
  · rw [if_neg htok, headD_append_left _ _ _ (by simp)]
    exact ⟨hL, hR⟩

theorem merge_step_order (acc : List (String × String)) (p lastp : String × String)
    (h : acc.getLast? = some lastp) :
    merge_step acc p = acc ++ [p] ∨
    ∃ q, merge_step acc p = acc.dropLast ++ [q] ∧
      (q.1 = lastp.1 ∨ q.1 = pyConcatStrip lastp.1 p.1) ∧
      (q.2 = lastp.2 ∨ q.2 = pyConcatStrip lastp.2 p.2) := by
  rcases List.eq_nil_or_concat acc with hn | ⟨init, a, hn⟩
  · rw [hn] at h
    simp at h
  · rw [hn, List.concat_eq_append] at h ⊢
    rw [List.getLast?_concat] at h
    injection h with h
    subst h
    rw [merge_step_concat, List.dropLast_concat]
    by_cases htok : (_starts_with_response_token p.1 || _starts_with_response_token p.2) = true
    · rw [if_pos htok]
      right
      refine ⟨_, rfl, ?_, ?_⟩
      · by_cases hl : _starts_with_response_token p.1 = true
        · rw [if_pos hl]
          exact Or.inr rfl
        · rw [if_neg hl]
          exact Or.inl rfl
      · by_cases hr : _starts_with_response_token p.2 = true
        · rw [if_pos hr]
          exact Or.inr rfl
        · rw [if_neg hr]
          exact Or.inl rfl
    · rw [if_neg htok]
      exact Or.inl rfl

theorem foldl_merge_invariant (q1 q2 : List Char)
    (h1 : ∀ c t, q1 = c :: t → isPyWs c = false)
    (h2 : ∀ c t, q2 = c :: t → isPyWs c = false) :
    ∀ (rest acc : List (String × String)),
      acc ≠ [] →
      leadsWith q1 (acc.headD ("", "")).1.data = true →
      leadsWith q2 (acc.headD ("", "")).2.data = true →
      (List.foldl merge_step acc rest ≠ [] ∧
       (List.foldl merge_step acc rest).length ≤ acc.length + rest.length ∧
       leadsWith q1 ((List.foldl merge_step acc rest).headD ("", "")).1.data = true ∧
       leadsWith q2 ((List.foldl merge_step acc rest).headD ("", "")).2.data = true) := by
  intro rest
  induction rest with
  | nil =>
    intro acc hne hLh hRh
    exact ⟨hne, by simp, hLh, hRh⟩
  | cons p rest ih =>
    intro acc hne hLh hRh
    rw [List.foldl_cons]
    have hstep := merge_step_headD acc p q1 q2 h1 h2 hne hLh hRh
    have hrec := ih (merge_step acc p) (merge_step_ne_nil acc p) hstep.1 hstep.2
    refine ⟨hrec.1, ?_, hrec.2.2.1, hrec.2.2.2⟩
    have hlen := merge_step_length acc p
    have := hrec.2.1
    simp only [List.length_cons]
    omega

theorem leadWsFree_elim (s : String) (hs : leadWsFree s) :
    ∀ c t, s.data = c :: t → isPyWs c = false := by
  intro c t h
  unfold leadWsFree at hs
  rw [h] at hs
  exact hs

/-- Claim C9 (amended): on a non-empty input whose first pair's sides do
not begin with whitespace, `merge_response_rows` is non-empty, no longer
than its input, its first output pair's sides extend the first input
pair's sides, and every step either appends the incoming pair or rewrites
only the last output pair by space-joining text onto its sides. -/
theorem merge_response_rows_shape (p1 : String × String) (rest : List (String × String))
    (hL : leadWsFree p1.1) (hR : leadWsFree p1.2) :
    merge_response_rows (p1 :: rest) ≠ [] ∧
    (merge_response_rows (p1 :: rest)).length ≤ (p1 :: rest).length ∧
    leadsWith p1.1.data ((merge_response_rows (p1 :: rest)).headD ("", "")).1.data = true ∧
    leadsWith p1.2.data ((merge_response_rows (p1 :: rest)).headD ("", "")).2.data = true ∧
    (∀ acc p lastp, acc.getLast? = some lastp →
      merge_step acc p = acc ++ [p] ∨
      ∃ q, merge_step acc p = acc.dropLast ++ [q] ∧
        (q.1 = lastp.1 ∨ q.1 = pyConcatStrip lastp.1 p.1) ∧
        (q.2 = lastp.2 ∨ q.2 = pyConcatStrip lastp.2 p.2)) := by
  have hstart : merge_step [] p1 = [p1] := rfl
  have hfold : merge_response_rows (p1 :: rest) = List.foldl merge_step [p1] rest := by
    unfold merge_response_rows
    rw [List.foldl_cons, hstart]
  have hinv := foldl_merge_invariant p1.1.data p1.2.data
    (leadWsFree_elim p1.1 hL) (leadWsFree_elim p1.2 hR) rest [p1]
    (by simp) (leadsWith_refl _) (leadsWith_refl _)
  rw [hfold]
  refine ⟨hinv.1, ?_, hinv.2.2.1, hinv.2.2.2, merge_step_order⟩
  have hlen := hinv.2.1
  have hone : ([p1] : List (String × String)).length = 1 := rfl
  rw [hone] at hlen
  simp only [List.length_cons]
  omega

/-- Witness for C9 at a concrete merging input. -/
theorem merge_response_rows_shape_witness :
    merge_response_rows [("a", "b"), ("R. x", "R. y")] ≠ [] ∧
    (merge_response_rows [("a", "b"), ("R. x", "R. y")]).length ≤ 2 ∧
    leadsWith "a".data ((merge_response_rows [("a", "b"), ("R. x", "R. y")]).headD ("", "")).1.data = true ∧
    leadsWith "b".data ((merge_response_rows [("a", "b"), ("R. x", "R. y")]).headD ("", "")).2.data = true :=
  have h := merge_response_rows_shape ("a", "b") [("R. x", "R. y")] (by decide) (by decide)
  ⟨h.1, h.2.1, h.2.2.1, h.2.2.2.1⟩

theorem latinLetter_not_digit (c : Char) (h : latinLetter c = true) : c.isDigit = false := by
  unfold latinLetter at h
  rw [Bool.or_eq_true] at h
  rcases h with ha | hm
  · simp only [Char.isAlpha, Char.isUpper, Char.isLower, Char.isDigit, Char.le_def, UInt32.le_def,
      BitVec.le_def, Bool.or_eq_true, Bool.and_eq_true, decide_eq_true_eq] at ha ⊢
    norm_num at ha ⊢
    omega
  · have hall : accentedLatin.all (fun c => !c.isDigit) = true := by decide
    have hmem : c ∈ accentedLatin := by simpa using hm
    have := List.all_eq_true.mp hall c hmem
    simpa using this

theorem pyAlphaStr_not_digitStr (s : String) (h : pyIsAlphaStr s = true) :
    pyIsDigitStr s = false := by
  unfold pyIsAlphaStr at h
  unfold pyIsDigitStr
  rw [Bool.and_eq_true] at h
  obtain ⟨hne, hall⟩ := h
  cases hd : s.data with
  | nil => rw [hd] at hne; simp at hne
  | cons c t =>
    rw [hd] at hall
    have hc : latinLetter c = true := by
      have := List.all_eq_true.mp hall c (List.mem_cons_self c t)
      simpa using this
    rw [List.all_cons, latinLetter_not_digit c hc]
    simp

theorem colorCmd_ne_sentinel (s : String) : colorCmd s ≠ "__FIRST_F__" := by
  intro h
  have h2 := congrArg String.data h
  rw [colorCmd, String.data_append, String.data_append] at h2
  have h3 : ("\\textcolor\x7bgregoriocolor\x7d\x7b".data) =
      '\\' :: "textcolor\x7bgregoriocolor\x7d\x7b".data := rfl
  have h4 : ("__FIRST_F__".data) = '_' :: "_FIRST_F__".data := rfl
  rw [h3, h4, List.cons_append] at h2
  injection h2 with h5 _
  exact absurd h5 (by decide)

theorem plainCell_ne_sentinel (c : String) (h : pyStripS c ≠ "__FIRST_F__") :
    plainCell c ≠ "__FIRST_F__" := by
  unfold plainCell _color_cell_for_letters
  simp only [Bool.false_and, Bool.false_eq_true, if_false]
  split_ifs
  · exact h
  · exact h
  · exact colorCmd_ne_sentinel _
  · exact colorCmd_ne_sentinel _
  · exact h

theorem color_cell_true_sentinel (c : String) (h : pyStripS c = "F") :
    _color_cell_for_letters c true = "__FIRST_F__" := by
  simp only [_color_cell_for_letters, h]
  decide

theorem color_cell_true_eq_plain (c : String) (h : pyStripS c ≠ "F") :
    _color_cell_for_letters c true = plainCell c := by
  unfold plainCell _color_cell_for_letters
  have hd : decide (pyStripS c = "F") = false := decide_eq_false h
  simp only [hd, Bool.and_false, Bool.false_and, Bool.false_eq_true, if_false]

theorem colorRowStep_plain (treat done : Bool) (h : (treat && !done) = false) :
    ∀ r : List String, (∀ c ∈ r, pyStripS c ≠ "__FIRST_F__") →
      colorRowStep treat done r = (r.map plainCell, done) := by
  intro r
  induction r with
  | nil => intro _; rfl
  | cons c cs ih =>
    intro hs
    rw [colorRowStep, h]
    rw [show _color_cell_for_letters c false = plainCell c from rfl]
    have hns : plainCell c ≠ "__FIRST_F__" :=
      plainCell_ne_sentinel c (hs c (List.mem_cons_self c cs))
    rw [if_neg hns]
    rw [ih (fun x hx => hs x (List.mem_cons_of_mem c hx))]
    rfl

theorem colorRowStep_scan (r : List String) (hs : ∀ c ∈ r, pyStripS c ≠ "__FIRST_F__") :
    colorRowStep true false r =
      (match firstFIdx r with
       | none => (r.map plainCell, false)
       | some j => ((r.take j).map plainCell ++ "F" :: (r.drop (j + 1)).map plainCell, true)) := by
  induction r with
  | nil => rfl
  | cons c cs ih =>
    by_cases hF : pyStripS c = "F"
    · have hfi : firstFIdx (c :: cs) = some 0 := by
        simp [firstFIdx, isFCell, hF]
      rw [hfi, colorRowStep]
      have hv : _color_cell_for_letters c (true && !false) = "__FIRST_F__" :=
        color_cell_true_sentinel c hF
      rw [hv, if_pos rfl]
      rw [colorRowStep_plain true true (by decide) cs
        (fun x hx => hs x (List.mem_cons_of_mem c hx))]
      simp
    · have hfi : firstFIdx (c :: cs) = (firstFIdx cs).map (· + 1) := by
        simp [firstFIdx, isFCell, hF]
      rw [hfi, colorRowStep]
      have hv : _color_cell_for_letters c (true && !false) = plainCell c :=
        color_cell_true_eq_plain c hF
      rw [hv]
      have hns : plainCell c ≠ "__FIRST_F__" :=
        plainCell_ne_sentinel c (hs c (List.mem_cons_self c cs))
      rw [if_neg hns]
      rw [ih (fun x hx => hs x (List.mem_cons_of_mem c hx))]
      cases hfc : firstFIdx cs with
      | none => simp
      | some j => simp [List.take_succ_cons, List.drop_succ_cons]

theorem colorRowsAux_plain (treat done : Bool) (h : (treat && !done) = false) :
    ∀ rows : List (List String),
      (∀ r ∈ rows, ∀ c ∈ r, pyStripS c ≠ "__FIRST_F__") →
      colorRowsAux treat done rows = rows.map (fun r => r.map plainCell) := by
  intro rows
  induction rows with
  | nil => intro _; rfl
  | cons r rs ih =>
    intro hs
    rw [colorRowsAux]
    rw [colorRowStep_plain treat done h r (hs r (List.mem_cons_self r rs))]
    rw [ih (fun x hx => hs x (List.mem_cons_of_mem r hx))]
    rfl

theorem colorRowsAux_scan (rows : List (List String))
    (hs : ∀ r ∈ rows, ∀ c ∈ r, pyStripS c ≠ "__FIRST_F__") :
    colorRowsAux true false rows = specRowsRender rows := by
  induction rows with
  | nil => rfl
  | cons r rs ih =>
    rw [colorRowsAux, specRowsRender]
    rw [colorRowStep_scan r (hs r (List.mem_cons_self r rs))]
    cases hfi : firstFIdx r with
    | none =>
      rw [ih (fun x hx => hs x (List.mem_cons_of_mem r hx))]
    | some j =>
      rw [colorRowsAux_plain true true (by decide) rs
        (fun x hx => hs x (List.mem_cons_of_mem r hx))]

theorem padRow_sentinel_free (n : Nat) (r : List String)
    (h : ∀ c ∈ r, pyStripS c ≠ "__FIRST_F__") :
    ∀ c ∈ padRow n r, pyStripS c ≠ "__FIRST_F__" := by
  intro c hc
  rw [padRow, List.mem_append] at hc
  rcases hc with hc | hc
  · exact h c hc
  · have : c = "" := List.eq_of_mem_replicate hc
    rw [this]
    decide

theorem emitTablesAux_spec (total : Nat) (tbs : List (List (List String))) :
    ∀ idx : Nat,
      (∀ tb ∈ tbs, ∀ r ∈ tb, ∀ c ∈ r, pyStripS c ≠ "__FIRST_F__") →
      emitTablesAux total idx tbs = specEmitTablesAux total idx tbs := by
  induction tbs with
  | nil => intro idx _; rfl
  | cons tb rest ih =>
    intro idx hs
    simp only [emitTablesAux, specEmitTablesAux]
    rw [ih (idx + 1) (fun x hx => hs x (List.mem_cons_of_mem tb hx))]
    by_cases he : tb.isEmpty = true
    · rw [if_pos he, if_pos he]
    · rw [if_neg he, if_neg he]
      have hrows : ∀ r ∈ tb.map (padRow (maxRowLen tb)), ∀ c ∈ r,
          pyStripS c ≠ "__FIRST_F__" := by
        intro r hr
        rw [List.mem_map] at hr
        obtain ⟨r0, hr0, hpad⟩ := hr
        rw [← hpad]
        exact padRow_sentinel_free _ r0 (hs tb (List.mem_cons_self tb rest) r0 hr0)
      by_cases hidx : (idx == 1) = true
      · rw [hidx, colorRowsAux_scan _ hrows]
        simp
      · rw [Bool.not_eq_true] at hidx
        rw [hidx, colorRowsAux_plain false false (by decide) _ hrows]
        simp

/-- Claim C7: letter-grid rendering — in the grid at zero-based index 1
only, the row-major first cell stripping to `F` is emitted uncolored and
all other alphabetic cells are wrapped in the coloring command; grids at
other indices color every alphabetic cell; pure-digit cells are never
colored.  (Cells whose stripped text is the internal sentinel
`__FIRST_F__` are excluded, since the code confuses them with its own
marker.) -/
theorem letter_grid_coloring_spec :
    (∀ tables : List (List (List String)),
       (∀ tb ∈ tables, ∀ r ∈ tb, ∀ c ∈ r, pyStripS c ≠ "__FIRST_F__") →
       emit_letter_tables_compact_no_border tables = specEmitLetterTables tables) ∧
    (∀ c : String, pyIsDigitStr (pyStripS c) = true →
       ∀ t, _color_cell_for_letters c t = pyStripS c) ∧
    (∀ (c : String) (t : Bool), pyIsAlphaStr (pyStripS c) = true →
       (t = false ∨ pyStripS c ≠ "F") →
       _color_cell_for_letters c t = colorCmd (pyStripS c)) := by
  refine ⟨?_, ?_, ?_⟩
  · intro tables hs
    rw [emit_letter_tables_compact_no_border, specEmitLetterTables]
    by_cases he : tables.isEmpty = true
    · rw [if_pos he, if_pos he]
    · rw [if_neg he, if_neg he, emitTablesAux_spec tables.length tables 0 hs]
  · intro c hd t
    have hne : ¬(pyStripS c = "") := by
      intro h0
      rw [h0] at hd
      simp [pyIsDigitStr] at hd
    unfold _color_cell_for_letters
    rw [if_neg hne, if_pos hd]
  · intro c t ha hF
    have hne : ¬(pyStripS c = "") := by
      intro h0
      rw [h0] at ha
      simp [pyIsAlphaStr] at ha
    have hd : pyIsDigitStr (pyStripS c) = false := pyAlphaStr_not_digitStr _ ha
    have hsent : (t && decide (pyStripS c = "F")) = false := by
      rcases hF with hF | hF
      · rw [hF]
        rfl
      · rw [decide_eq_false hF]
        simp
    unfold _color_cell_for_letters
    rw [if_neg hne, if_neg (by simp [hd]), hsent]
    by_cases hlen : (decide ((pyStripS c).length = 1) && pyIsAlphaStr (pyStripS c)) = true
    · rw [if_pos hlen]
      simp
    · rw [Bool.not_eq_true] at hlen
      rw [hlen]
      simp only [Bool.false_eq_true, if_false]
      rw [if_pos ha]

/-- Witness for C7 at concrete grids and cells. -/
theorem letter_grid_coloring_spec_witness :
    emit_letter_tables_compact_no_border [[["1", "2"]], [["A", "F"], ["F", "b"]]] =
      specEmitLetterTables [[["1", "2"]], [["A", "F"], ["F", "b"]]] ∧
    _color_cell_for_letters "12" true = pyStripS "12" ∧
    _color_cell_for_letters "A" true = colorCmd (pyStripS "A") :=
  ⟨letter_grid_coloring_spec.1 [[["1", "2"]], [["A", "F"], ["F", "b"]]] (by decide),
   letter_grid_coloring_spec.2.1 "12" (by decide) true,
   letter_grid_coloring_spec.2.2 "A" true (by decide) (Or.inr (by decide))⟩

theorem htmlUnescapeAux_no_amp (fuel : Nat) :
    ∀ l : List Char, (∀ c ∈ l, c ≠ '&') → htmlUnescapeAux fuel l = l.take fuel := by
  induction fuel with
  | zero => intro l _; cases l <;> rfl
  | succ fuel ih =>
    intro l h
    cases l with
    | nil => rfl
    | cons c cs =>
      rw [htmlUnescapeAux, if_neg (h c (List.mem_cons_self c cs)), List.take_succ_cons]
      rw [ih cs (fun x hx => h x (List.mem_cons_of_mem c hx))]

theorem htmlUnescape_no_amp (l : List Char) (h : ∀ c ∈ l, c ≠ '&') :
    htmlUnescape l = l := by
  rw [htmlUnescape, htmlUnescapeAux_no_amp _ l h]
  exact List.take_of_length_le (Nat.le_succ _)

theorem map_nbsp_id (l : List Char) (h : ∀ c ∈ l, c ≠ '\xa0') :
    l.map (fun c => if c = '\xa0' then ' ' else c) = l := by
  induction l with
  | nil => rfl
  | cons c cs ih =>
    rw [List.map_cons, if_neg (h c (List.mem_cons_self c cs))]
    rw [ih (fun x hx => h x (List.mem_cons_of_mem c hx))]

theorem rstripBy_all_false (p : Char → Bool) (l : List Char)
    (h : ∀ c ∈ l, p c = false) : rstripBy p l = l := by
  induction l with
  | nil => rfl
  | cons c cs ih =>
    rw [rstripBy, ih (fun x hx => h x (List.mem_cons_of_mem c hx))]
    cases cs with
    | nil => simp [h c (List.mem_cons_self c [])]
    | cons d t => rfl

theorem escChar_plain (c : Char) (h : (c.isAlpha || c.isDigit || c = ' ') = true) :
    escChar c = [c] := by
  unfold escChar
  split
  · exact absurd h (by decide)
  · exact absurd h (by decide)
  · exact absurd h (by decide)
  · exact absurd h (by decide)
  · exact absurd h (by decide)
  · exact absurd h (by decide)
  · exact absurd h (by decide)
  · exact absurd h (by decide)
  · exact absurd h (by decide)
  · exact absurd h (by decide)
  · rfl

theorem flatten_escChar_plain (l : List Char)
    (h : ∀ c ∈ l, (c.isAlpha || c.isDigit || c = ' ') = true) :
    (l.map escChar).flatten = l := by
  induction l with
  | nil => rfl
  | cons c cs ih =>
    rw [List.map_cons, List.flatten_cons, escChar_plain c (h c (List.mem_cons_self c cs))]
    rw [ih (fun x hx => h x (List.mem_cons_of_mem c hx))]
    rfl

theorem punctFix_no_punct (l : List Char) (h : ∀ c ∈ l, punctChar c = false) :
    punctFix l = l := by
  induction l with
  | nil => rfl
  | cons c cs ih =>
    rw [punctFix]
    have hcond : (match cs.dropWhile isPyWs with
                  | d :: _ => punctChar d
                  | [] => false) = false := by
      cases hm : cs.dropWhile isPyWs with
      | nil => rfl
      | cons d t =>
        exact h d (List.mem_cons_of_mem c
          (dropWhile_mem isPyWs cs d (hm ▸ List.mem_cons_self d t)))
    rw [hcond]
    simp only [Bool.and_false, Bool.false_eq_true, if_false]
    rw [ih (fun x hx => h x (List.mem_cons_of_mem c hx))]

theorem noTwoAdj_tail (c : Char) (l : List Char) (h : noTwoAdjHWs (c :: l) = true) :
    noTwoAdjHWs l = true := by
  cases l with
  | nil => rfl
  | cons d t =>
    rw [noTwoAdjHWs, Bool.and_eq_true] at h
    exact h.2

theorem collapseWs_chars (l : List Char) : ∀ x ∈ collapseWs l, x = ' ' ∨ x ∈ l := by
  induction l with
  | nil => intro x hx; simp [collapseWs] at hx
  | cons c cs ih =>
    cases cs with
    | nil =>
      intro x hx
      rw [collapseWs] at hx
      rw [List.mem_singleton] at hx
      by_cases hc : isHWs c = true
      · rw [if_pos hc] at hx
        exact Or.inl hx
      · rw [if_neg hc] at hx
        right
        rw [hx]
        exact List.mem_cons_self c []
    | cons d ds =>
      intro x hx
      rw [collapseWs] at hx
      by_cases hcd : (isHWs c && isHWs d) = true
      · rw [if_pos hcd] at hx
        rcases ih x hx with h | h
        · exact Or.inl h
        · exact Or.inr (List.mem_cons_of_mem c h)
      · rw [if_neg hcd] at hx
        rcases List.mem_cons.mp hx with hx | hx
        · by_cases hc : isHWs c = true
          · rw [if_pos hc] at hx
            exact Or.inl hx
          · rw [if_neg hc] at hx
            right
            rw [hx]
            exact List.mem_cons_self c (d :: ds)
        · rcases ih x hx with h | h
          · exact Or.inl h
          · exact Or.inr (List.mem_cons_of_mem c h)

theorem collapseWs_head (d : Char) (cs : List Char) :
    (collapseWs (d :: cs)).head? = some (if isHWs d then ' ' else d) := by
  induction cs generalizing d with
  | nil => rfl
  | cons e es ih =>
    rw [collapseWs]
    by_cases hde : (isHWs d && isHWs e) = true
    · rw [if_pos hde, ih e]
      rw [Bool.and_eq_true] at hde
      rw [if_pos hde.2, if_pos hde.1]
    · rw [if_neg hde]
      rfl

theorem collapseWs_noTwoAdj (l : List Char) : noTwoAdjHWs (collapseWs l) = true := by
  induction l with
  | nil => rfl
  | cons c cs ih =>
    cases cs with
    | nil =>
      rw [collapseWs]
      rfl
    | cons d ds =>
      rw [collapseWs]
      by_cases hcd : (isHWs c && isHWs d) = true
      · rw [if_pos hcd]
        exact ih
      · rw [if_neg hcd]
        cases hcol : collapseWs (d :: ds) with
        | nil => rfl
        | cons y ys =>
          have hy : y = if isHWs d then ' ' else d := by
            have hh := collapseWs_head d ds
            rw [hcol] at hh
            simpa using hh
          have hno : noTwoAdjHWs (y :: ys) = true := by
            rw [← hcol]
            exact ih
          rw [noTwoAdjHWs, hno, Bool.and_true]
          rw [Bool.and_eq_true] at hcd
          by_cases hc : isHWs c = true
          · have hd2 : isHWs d = false := by
              cases hd3 : isHWs d with
              | false => rfl
              | true => exact absurd ⟨hc, hd3⟩ hcd
            rw [if_pos hc, hy, if_neg (by simp [hd2])]
            simp [hd2]
          · rw [Bool.not_eq_true] at hc
            rw [if_neg (by simp [hc])]
            simp [hc]

theorem collapseWs_fixed (u : List Char) (h1 : noTwoAdjHWs u = true)
    (h2 : ∀ c ∈ u, isHWs c = true → c = ' ') : collapseWs u = u := by
  induction u with
  | nil => rfl
  | cons c cs ih =>
    cases cs with
    | nil =>
      rw [collapseWs]
      by_cases hc : isHWs c = true
      · rw [if_pos hc, h2 c (List.mem_cons_self c []) hc]
      · rw [if_neg hc]
    | cons d ds =>
      rw [collapseWs]
      have hcd : (isHWs c && isHWs d) = false := by
        rw [noTwoAdjHWs, Bool.and_eq_true] at h1
        have := h1.1
        rwa [Bool.not_eq_eq_eq_not, Bool.not_true] at this
      rw [if_neg (by simp [hcd])]
      have htl : noTwoAdjHWs (d :: ds) = true := noTwoAdj_tail c (d :: ds) h1
      rw [ih htl (fun x hx h3 => h2 x (List.mem_cons_of_mem c hx) h3)]
      by_cases hc : isHWs c = true
      · rw [if_pos hc, h2 c (List.mem_cons_self c (d :: ds)) hc]
      · rw [if_neg hc]

theorem noTwoAdj_dropWhile (p : Char → Bool) (l : List Char)
    (h : noTwoAdjHWs l = true) : noTwoAdjHWs (l.dropWhile p) = true := by
  induction l with
  | nil => rfl
  | cons c cs ih =>
    rw [List.dropWhile_cons]
    by_cases hp : p c = true
    · rw [if_pos hp]
      exact ih (noTwoAdj_tail c cs h)
    · rw [if_neg hp]
      exact h

theorem rstripBy_head?_eq (p : Char → Bool) (u : List Char) (x : Char) (xs : List Char)
    (h : rstripBy p u = x :: xs) : u.head? = some x := by
  cases u with
  | nil => simp [rstripBy] at h
  | cons c cs =>
    rcases rstripBy_cons_head p c cs with h2 | ⟨t, h2⟩
    · rw [h2] at h
      simp at h
    · rw [h2] at h
      injection h with h3 _
      rw [h3]
      rfl

theorem noTwoAdj_rstripBy (p : Char → Bool) (l : List Char)
    (h : noTwoAdjHWs l = true) : noTwoAdjHWs (rstripBy p l) = true := by
  induction l with
  | nil => rfl
  | cons c cs ih =>
    rw [rstripBy]
    cases hr : rstripBy p cs with
    | nil =>
      by_cases hp : p c = true
      · rw [if_pos hp]
        rfl
      · rw [if_neg hp]
        rfl
    | cons x xs =>
      have h2 : noTwoAdjHWs (x :: xs) = true := by
        rw [← hr]
        exact ih (noTwoAdj_tail c cs h)
      cases cs with
      | nil => simp [rstripBy] at hr
      | cons c2 t2 =>
        have hx : c2 = x := by
          have hh := rstripBy_head?_eq p (c2 :: t2) x xs hr
          simpa using hh
        subst hx
        rw [noTwoAdjHWs, Bool.and_eq_true] at h
        rw [noTwoAdjHWs, h2, Bool.and_true]
        exact h.1

theorem mem_of_rstripBy (p : Char → Bool) (l : List Char) (x : Char)
    (h : x ∈ rstripBy p l) : x ∈ l := by
  induction l with
  | nil => simp [rstripBy] at h
  | cons c cs ih =>
    rw [rstripBy] at h
    cases hr : rstripBy p cs with
    | nil =>
      rw [hr] at h
      by_cases hp : p c = true
      · rw [if_pos hp] at h
        simp at h
      · rw [if_neg hp] at h
        rw [List.mem_singleton] at h
        rw [h]
        exact List.mem_cons_self c cs
    | cons y ys =>
      rw [hr] at h
      rcases List.mem_cons.mp h with h | h
      · rw [h]
        exact List.mem_cons_self c cs
      · exact List.mem_cons_of_mem c (ih (hr ▸ h))

theorem plain_hws_space (c : Char) (hp : (c.isAlpha || c.isDigit || c = ' ') = true)
    (hw : isHWs c = true) : c = ' ' := by
  unfold isHWs at hw
  have hw2 : c = ' ' ∨ c = '\t' ∨ c = '\x0c' ∨ c = '\x0b' := by
    simpa [or_assoc] using hw
  rcases hw2 with h | h | h | h
  · exact h
  · subst h
    exact absurd hp (by decide)
  · subst h
    exact absurd hp (by decide)
  · subst h
    exact absurd hp (by decide)

theorem plain_not_punct (c : Char) (hp : (c.isAlpha || c.isDigit || c = ' ') = true) :
    punctChar c = false := by
  cases h : punctChar c with
  | false => rfl
  | true =>
    unfold punctChar at h
    have h2 : c = '.' ∨ c = ',' ∨ c = ';' ∨ c = ':' ∨ c = '?' ∨ c = '!' := by
      simpa [or_assoc] using h
    rcases h2 with h | h | h | h | h | h <;> (subst h; exact absurd hp (by decide))

theorem pyStrip_idem (x : List Char) : pyStrip (pyStrip x) = pyStrip x := by
  nth_rewrite 1 [pyStrip]
  rw [pyStrip_no_lead, pyStrip_no_trail]

theorem latex_escape_plain_eq (s : String)
    (h : ∀ c ∈ s.data, (c.isAlpha || c.isDigit || c = ' ') = true) :
    latex_escape (some s) = String.mk (pyStrip (collapseWs s.data)) := by
  have h1 : htmlUnescape s.data = s.data :=
    htmlUnescape_no_amp s.data (fun c hc heq => absurd (heq ▸ h c hc) (by decide))
  have h2 : s.data.map (fun c => if c = '\xa0' then ' ' else c) = s.data :=
    map_nbsp_id s.data (fun c hc heq => absurd (heq ▸ h c hc) (by decide))
  have h3 : rstripBy (fun c => c = '\n') s.data = s.data :=
    rstripBy_all_false _ s.data
      (fun c hc => decide_eq_false (fun heq => absurd (heq ▸ h c hc) (by decide)))
  have h4 : (s.data.map escChar).flatten = s.data := flatten_escChar_plain s.data h
  have h5 : punctFix (collapseWs s.data) = collapseWs s.data := by
    refine punctFix_no_punct _ (fun c hc => ?_)
    rcases collapseWs_chars s.data c hc with h6 | h6
    · rw [h6]
      rfl
    · exact plain_not_punct c (h c h6)
  simp only [latex_escape]
  rw [h1, h2, h3, h4, h5]

theorem plain_pyStrip_collapse (s : String)
    (h : ∀ c ∈ s.data, (c.isAlpha || c.isDigit || c = ' ') = true) :
    ∀ c ∈ pyStrip (collapseWs s.data), (c.isAlpha || c.isDigit || c = ' ') = true := by
  intro c hc
  have hc2 : c ∈ collapseWs s.data := by
    rw [pyStrip] at hc
    exact dropWhile_mem _ _ _ (mem_of_rstripBy _ _ _ hc)
  rcases collapseWs_chars s.data c hc2 with h2 | h2
  · rw [h2]
    decide
  · exact h c h2

theorem noTwoAdj_pyStrip_collapse (l : List Char) :
    noTwoAdjHWs (pyStrip (collapseWs l)) = true := by
  rw [pyStrip]
  exact noTwoAdj_rstripBy _ _ (noTwoAdj_dropWhile _ _ (collapseWs_noTwoAdj l))

/-- Claim C3 (amended): the Text Normalizer is idempotent on text of
letters, digits, and spaces; the counterexample on `#` shows it is not
idempotent in general. -/
theorem latex_escape_idempotent_on_plain_text (s : String)
    (h : ∀ c ∈ s.data, (c.isAlpha || c.isDigit || c = ' ') = true) :
    latex_escape (some (latex_escape (some s))) = latex_escape (some s) := by
  rw [latex_escape_plain_eq s h]
  have hplain : ∀ c ∈ (String.mk (pyStrip (collapseWs s.data))).data,
      (c.isAlpha || c.isDigit || c = ' ') = true := plain_pyStrip_collapse s h
  rw [latex_escape_plain_eq _ hplain]
  have hcol : collapseWs (pyStrip (collapseWs s.data)) = pyStrip (collapseWs s.data) :=
    collapseWs_fixed _ (noTwoAdj_pyStrip_collapse s.data)
      (fun c hc hw => plain_hws_space c (plain_pyStrip_collapse s h c hc) hw)
  show String.mk (pyStrip (collapseWs (pyStrip (collapseWs s.data)))) =
    String.mk (pyStrip (collapseWs s.data))
  rw [hcol, pyStrip_idem]

/-- Witness for the amended C3 at a concrete plain input. -/
theorem latex_escape_idempotent_on_plain_text_witness :
    latex_escape (some (latex_escape (some "Ab  12"))) = latex_escape (some "Ab  12") :=
  latex_escape_idempotent_on_plain_text "Ab  12" (by decide)
